import Mathlib

/-!
Verification of the `generateRoutes` route extractor
(`src/tools/generateRoutes/generateRoutes.ts`) and of the `valueToSql`
helper of the seed-to-SQL converter (`src/tools/seedToSql/seedToSql.mjs`).

Source text is modelled as `List Char`.  The JavaScript regular-expression
loops are modelled by explicit scanners that attempt a match at every
position, resume after the end of a successful match (the `lastIndex`
behaviour of `RegExp.exec` with the `g` flag), and otherwise advance one
character.  The filesystem is modelled by an explicit map from absolute
path strings to file contents together with the working directory.
-/

namespace GraftThis

/-- The character classes of the JavaScript regexes: `\s` (ASCII part). -/
def isJsWs (c : Char) : Bool :=
  c == ' ' || c == '\t' || c == '\n' || c == '\r' || c == Char.ofNat 11 || c == Char.ofNat 12

/-- The `\w` class of JavaScript regexes: `[A-Za-z0-9_]`. -/
def isWordChar (c : Char) : Bool :=
  c.isAlpha || c.isDigit || c == '_'

/-- The single-quote character (codepoint 39). -/
def squote : Char := Char.ofNat 39

/-- A character matched by the `["']` regex class. -/
def isQuoteChar (c : Char) : Bool :=
  c == '"' || c == squote

/-!
## findMatchingBracket

```
async function findMatchingBracket(content, startIndex) {
  let count = 1;
  let i = startIndex;
  while (count > 0 && i < content.length) {
    if (content[i] === '[') count++;
    if (content[i] === ']') count--;
    i++;
  }
  return i - 1;
}
```
-/

/-- The `while` loop of `findMatchingBracket`, iterating over the suffix
`content.drop i` of the original string (the loop guard `i < content.length`
is the suffix being nonempty); returns the final value of `i`. -/
def findMatchingBracketAux : List Char → Nat → Nat → Nat
  | [], _, i => i
  | c :: rest, count, i =>
    if count = 0 then i
    else
      findMatchingBracketAux rest
        ((if c = '[' then count + 1 else count) - (if c = ']' then 1 else 0)) (i + 1)

/-- `findMatchingBracket` from the source; the JS value `i - 1` may be `-1`,
so the result is an `Int`. -/
def findMatchingBracket (content : List Char) (startIndex : Nat) : Int :=
  (findMatchingBracketAux (content.drop startIndex) 1 startIndex : Int) - 1

/-!
## Generic regex-loop scanner
-/

/-- One pass of a `while ((m = re.exec(content)) !== null)` loop.  `matcher`
attempts a match at the head of the remaining input and returns the payload
together with the length of the whole match.  On success the scan resumes
after the match (every matcher below consumes at least one character; the
`max k 1` only serves the fuel bound), on failure it advances one
character.  Emits `(payload, match start, match end)`.  The recursion is
driven by a fuel bounded below by the input length (every step consumes at
least one character), so that the definition is structurally recursive and
evaluates by kernel reduction. -/
def scanGo {α : Type} (matcher : List Char → Option (α × Nat)) :
    Nat → List Char → Nat → List (α × Nat × Nat)
  | 0, _, _ => []
  | _ + 1, [], _ => []
  | fuel + 1, c :: cs, pos =>
    match matcher (c :: cs) with
    | some (a, k) =>
        (a, pos, pos + k) :: scanGo matcher fuel ((c :: cs).drop (max k 1)) (pos + max k 1)
    | none => scanGo matcher fuel cs (pos + 1)

/-- Run a regex loop over the whole input. -/
def scanA {α : Type} (matcher : List Char → Option (α × Nat))
    (cs : List Char) (pos : Nat) : List (α × Nat × Nat) :=
  scanGo matcher cs.length cs pos

/-- Matcher for `route\("([^"]+)"` : payload is the captured path. -/
def routeMatcher (cs : List Char) : Option (List Char × Nat) :=
  if ("route(\"".data).isPrefixOf cs then
    let rest := cs.drop 7
    let cap := rest.takeWhile (fun c => c != '"')
    if cap ≠ [] ∧ cap.length < rest.length then
      some (cap, 7 + cap.length + 1)
    else none
  else none

/-- Matcher for `prefix\("([^"]+)",\s*\[` : payload is the captured path. -/
def prefixMatcher (cs : List Char) : Option (List Char × Nat) :=
  if ("prefix(\"".data).isPrefixOf cs then
    let rest := cs.drop 8
    let cap := rest.takeWhile (fun c => c != '"')
    if cap ≠ [] ∧ cap.length < rest.length then
      let rest2 := rest.drop (cap.length + 1)
      if rest2.head? = some ',' then
        let ws := (rest2.drop 1).takeWhile isJsWs
        if ((rest2.drop 1).drop ws.length).head? = some '[' then
          some (cap, 8 + cap.length + 1 + 1 + ws.length + 1)
        else none
      else none
    else none
  else none

/-- Matcher for `\.\.\.([\w]+)\s*,?` : payload is the captured identifier. -/
def spreadMatcher (cs : List Char) : Option (List Char × Nat) :=
  if ("...".data).isPrefixOf cs then
    let rest := cs.drop 3
    let ident := rest.takeWhile isWordChar
    if ident ≠ [] then
      let rest2 := rest.drop ident.length
      let ws := rest2.takeWhile isJsWs
      let comma : Nat := if (rest2.drop ws.length).head? = some ',' then 1 else 0
      some (ident, 3 + ident.length + ws.length + comma)
    else none
  else none

/-- Matcher for `prefix\(\s*["']([^"']+)["']\s*,\s*([\w]+)\s*\)` :
payload is (captured path, captured identifier). -/
def prefixVarMatcher (cs : List Char) : Option ((List Char × List Char) × Nat) :=
  if ("prefix(".data).isPrefixOf cs then
    let r1 := cs.drop 7
    let ws1 := r1.takeWhile isJsWs
    let r2 := r1.drop ws1.length
    match r2.head? with
    | none => none
    | some q1 =>
      if isQuoteChar q1 then
        let r3 := r2.drop 1
        let cap := r3.takeWhile (fun c => !(isQuoteChar c))
        if cap ≠ [] ∧ cap.length < r3.length then
          let r4 := r3.drop (cap.length + 1)
          let ws2 := r4.takeWhile isJsWs
          let r5 := r4.drop ws2.length
          if r5.head? = some ',' then
            let r6 := r5.drop 1
            let ws3 := r6.takeWhile isJsWs
            let r7 := r6.drop ws3.length
            let ident := r7.takeWhile isWordChar
            if ident ≠ [] then
              let r8 := r7.drop ident.length
              let ws4 := r8.takeWhile isJsWs
              let r9 := r8.drop ws4.length
              if r9.head? = some ')' then
                some ((cap, ident),
                  7 + ws1.length + 1 + cap.length + 1 + ws2.length + 1 +
                    ws3.length + ident.length + ws4.length + 1)
              else none
            else none
          else none
        else none
      else none
  else none

/-- Matcher for `import\s*{\s*([^}]+)\s*}\s*from\s*["']([^"']+)["']` :
payload is (captured names blob, captured module path).  When the text
between the braces is pure whitespace the greedy `\s*` backtracks by one
character and the capture is the last whitespace character. -/
def importMatcher (cs : List Char) : Option ((List Char × List Char) × Nat) :=
  if ("import".data).isPrefixOf cs then
    let r1 := cs.drop 6
    let ws1 := r1.takeWhile isJsWs
    let r2 := r1.drop ws1.length
    if r2.head? = some '{' then
      let r3 := r2.drop 1
      let ws2 := r3.takeWhile isJsWs
      let r4 := r3.drop ws2.length
      let cap0 := r4.takeWhile (fun c => c != '}')
      let namesAndLen : Option (List Char × Nat) :=
        if cap0 ≠ [] then
          if cap0.length < r4.length then some (cap0, ws2.length + cap0.length + 1) else none
        else if ws2 ≠ [] ∧ r4.head? = some '}' then
          some ([ws2.getLastD ' '], ws2.length + 1)
        else none
      match namesAndLen with
      | none => none
      | some (names, k1) =>
        let r5 := r3.drop k1
        let ws3 := r5.takeWhile isJsWs
        let r6 := r5.drop ws3.length
        if ("from".data).isPrefixOf r6 then
          let r7 := r6.drop 4
          let ws4 := r7.takeWhile isJsWs
          let r8 := r7.drop ws4.length
          match r8.head? with
          | none => none
          | some q =>
            if isQuoteChar q then
              let r9 := r8.drop 1
              let cap2 := r9.takeWhile (fun c => !(isQuoteChar c))
              if cap2 ≠ [] ∧ cap2.length < r9.length then
                some ((names, cap2),
                  6 + ws1.length + 1 + k1 + ws3.length + 4 + ws4.length + 1 + cap2.length + 1)
              else none
            else none
        else none
    else none
  else none

/-- All matches of `route\("([^"]+)"` in scan order. -/
def routeMatches (cs : List Char) : List (List Char × Nat × Nat) := scanA routeMatcher cs 0

/-- All matches of `prefix\("([^"]+)",\s*\[` in scan order. -/
def prefixMatches (cs : List Char) : List (List Char × Nat × Nat) := scanA prefixMatcher cs 0

/-- All matches of `\.\.\.([\w]+)\s*,?` in scan order. -/
def spreadMatches (cs : List Char) : List (List Char × Nat × Nat) := scanA spreadMatcher cs 0

/-- All matches of the `prefix("<p>", name)` regex in scan order. -/
def prefixVarMatches (cs : List Char) : List ((List Char × List Char) × Nat × Nat) :=
  scanA prefixVarMatcher cs 0

/-- All matches of the import regex in scan order. -/
def importMatches (cs : List Char) : List ((List Char × List Char) × Nat × Nat) :=
  scanA importMatcher cs 0

/-!
## JavaScript string helpers
-/

/-- `String.prototype.lastIndexOf` (−1 when absent). -/
def lastIndexOfL (hay needle : List Char) : Int :=
  match ((List.range (hay.length + 1)).filter
      (fun i => needle.isPrefixOf (hay.drop i))).getLast? with
  | some i => (i : Int)
  | none => -1

/-- Substring containment (models `reg.test` for a literal pattern). -/
def containsL (hay needle : List Char) : Bool :=
  (List.range (hay.length + 1)).any (fun i => needle.isPrefixOf (hay.drop i))

/-- `String.prototype.substring`: negative arguments clamp to 0, arguments
above the length clamp to the length, and swapped bounds are exchanged. -/
def jsSubstring (cs : List Char) (a b : Int) : List Char :=
  let len : Int := cs.length
  let a1 := min (max a 0) len
  let b1 := min (max b 0) len
  let lo := min a1 b1
  let hi := max a1 b1
  (cs.drop lo.toNat).take (hi - lo).toNat

/-- `String.prototype.trim` (ASCII whitespace). -/
def trimL (cs : List Char) : List Char :=
  ((cs.dropWhile isJsWs).reverse.dropWhile isJsWs).reverse

/-- Worker for `splitOnL`, structurally recursive on a fuel bounded below
by the input length (every step consumes at least one character). -/
def splitGo (sep : List Char) : Nat → List Char → List (List Char)
  | 0, _ => [[]]
  | _ + 1, [] => [[]]
  | fuel + 1, c :: rest =>
    if sep ≠ [] ∧ sep.isPrefixOf (c :: rest) then
      [] :: splitGo sep fuel ((c :: rest).drop (max sep.length 1))
    else
      match splitGo sep fuel rest with
      | [] => [[c]]
      | group :: groups => (c :: group) :: groups

/-- `String.prototype.split` with a separator string.  The separators used
by the source (`","`, `" as "`, `"/"`) are nonempty. -/
def splitOnL (sep : List Char) (cs : List Char) : List (List Char) :=
  splitGo sep cs.length cs

/-- `String.prototype.startsWith`. -/
def jsStartsWith (s pre : String) : Bool :=
  pre.data.isPrefixOf s.data

/-- `String.prototype.endsWith`. -/
def jsEndsWith (s suf : String) : Bool :=
  suf.data.isSuffixOf s.data

/-- Join a list of strings with a separator (the argument order of
`String.intercalate`). -/
def interL (sep : String) (parts : List String) : String :=
  String.mk (((parts.map String.data).intersperse sep.data).flatten)

/-!
## The JavaScript `Set`-based deduplication (`[...new Set(routes)]`)
-/

/-- Adding one element to a JS `Set` (represented by its insertion order). -/
def jsSetAdd (seen : List String) (x : String) : List String :=
  if x ∈ seen then seen else seen ++ [x]

/-- `[...new Set(l)]`: insert every element in order, spread back to a list. -/
def jsSetOfList (l : List String) : List String :=
  l.foldl jsSetAdd []

/-!
## Filesystem and Node `path` model
-/

/-- Content of an import binding recorded by `findImportedRoutes`. -/
structure ImportInfo where
  originalName : Option String
  path : String
deriving DecidableEq, Repr

/-- The filesystem as seen by the script: the working directory
(`process.cwd()`) and a map from absolute path to file content.
`fs.access` succeeds exactly on the recorded paths. -/
structure Fs where
  cwd : String
  files : List (String × String)
deriving Repr

/-- `fs.readFile` (`none` models the rejected promise). -/
def Fs.read (fs : Fs) (p : String) : Option String :=
  (fs.files.find? (fun q => q.1 == p)).map (fun q => q.2)

/-- `fs.access` as a Boolean: does the path exist. -/
def Fs.access (fs : Fs) (p : String) : Bool :=
  (fs.read p).isSome

/-- Normalisation core of Node's posix `path.normalize`: the first list is
the reversed accumulator of kept segments. -/
def normSegs (isAbs : Bool) : List String → List String → List String
  | acc, [] => acc.reverse
  | acc, seg :: rest =>
    if seg = "" || seg = "." then normSegs isAbs acc rest
    else if seg = ".." then
      match acc with
      | [] => normSegs isAbs (if isAbs then [] else [".."]) rest
      | top :: acc2 =>
        if top = ".." then normSegs isAbs (".." :: top :: acc2) rest
        else normSegs isAbs acc2 rest
    else normSegs isAbs (seg :: acc) rest

/-- Node posix `path.normalize` (trailing-slash preservation omitted; the
script never produces trailing slashes). -/
def nodeNormalize (s : String) : String :=
  let isAbs := jsStartsWith s "/"
  let segs := normSegs isAbs [] ((splitOnL ['/'] s.data).map String.mk)
  let body := interL "/" segs
  if isAbs then (if body = "" then "/" else "/" ++ body)
  else (if body = "" then "." else body)

/-- Node posix `path.join`. -/
def nodeJoin (parts : List String) : String :=
  let ps := parts.filter (fun p => p ≠ "")
  if ps.isEmpty then "." else nodeNormalize (interL "/" ps)

/-- Node posix `path.dirname`. -/
def nodeDirname (s : String) : String :=
  let cs := s.data
  let hasRoot := jsStartsWith s "/"
  let endIdx := ((List.range cs.length).filter (fun i =>
      decide (1 ≤ i) && (cs.getD i ' ' == '/') &&
      ((List.range cs.length).any (fun j => decide (i < j) && (cs.getD j ' ' != '/'))))).getLast?
  match endIdx with
  | none => if hasRoot then "/" else "."
  | some e => if hasRoot ∧ e = 1 then "//" else String.mk (cs.take e)

/-!
## resolveImportPath

```
async function resolveImportPath(importPath, currentFilePath?) {
  let absolutePath = importPath;
  if (importPath.startsWith('@/')) {
    absolutePath = path.join(process.cwd(), 'src', importPath.slice(2));
  } else if (importPath.startsWith('./') || importPath.startsWith('../')) {
    const basePath = currentFilePath ? path.dirname(currentFilePath) : process.cwd();
    absolutePath = path.join(basePath, importPath);
  }
  if (!absolutePath.endsWith('.ts') && !absolutePath.endsWith('.tsx')) {
    try { await fs.access(absolutePath + '.ts'); return absolutePath + '.ts'; }
    catch { try { await fs.access(absolutePath + '.tsx'); return absolutePath + '.tsx'; }
            catch { return absolutePath + '.ts'; } }
  }
  return absolutePath;
}
```
-/

def resolveImportPath (fs : Fs) (importPath : String) (currentFilePath : Option String) :
    String :=
  let absolutePath :=
    if jsStartsWith importPath "@/" then
      nodeJoin [fs.cwd, "src", String.mk (importPath.data.drop 2)]
    else if jsStartsWith importPath "./" || jsStartsWith importPath "../" then
      let basePath := match currentFilePath with
        | some f => nodeDirname f
        | none => fs.cwd
      nodeJoin [basePath, importPath]
    else importPath
  if !(jsEndsWith absolutePath ".ts") && !(jsEndsWith absolutePath ".tsx") then
    if fs.access (absolutePath ++ ".ts") then absolutePath ++ ".ts"
    else if fs.access (absolutePath ++ ".tsx") then absolutePath ++ ".tsx"
    else absolutePath ++ ".ts"
  else absolutePath

/-!
## Import table (`const imports = new Map(...)` of `findImportedRoutes`)
-/

/-- `Map.prototype.set`: overwrite in place, else append. -/
def setA (m : List (String × ImportInfo)) (k : String) (v : ImportInfo) :
    List (String × ImportInfo) :=
  if m.any (fun p => p.1 == k) then
    m.map (fun p => if p.1 == k then (k, v) else p)
  else m ++ [(k, v)]

/-- `Map.prototype.get`. -/
def getA (m : List (String × ImportInfo)) (k : String) : Option ImportInfo :=
  (m.find? (fun p => p.1 == k)).map (fun p => p.2)

/-- Record the bindings of one import statement: split the names blob on
commas, trim each, and handle `orig as alias`. -/
def applyImportNames (m : List (String × ImportInfo)) (importPath : String)
    (names : List String) : List (String × ImportInfo) :=
  names.foldl (fun m name =>
    let parts := (splitOnL (" as ".data) name.data).map (fun p => String.mk (trimL p))
    if parts.length ≥ 2 then
      setA m (parts.getD 1 "") ⟨some (parts.getD 0 ""), importPath⟩
    else setA m name ⟨none, importPath⟩) m

/-- The import-collection loop of `findImportedRoutes`. -/
def parseImports (content : List Char) : List (String × ImportInfo) :=
  (importMatches content).foldl (fun m im =>
    let names := (splitOnL (",".data) im.1.1).map (fun n => String.mk (trimL n))
    applyImportNames m (String.mk im.1.2) names) []

/-- The identifiers of the spread matches, in scan order. -/
def spreadIdents (content : List Char) : List String :=
  (spreadMatches content).map (fun m => String.mk m.1)

/-- The `(prefixPath, variableName)` pairs of the `prefix("<p>", name)`
matches, in scan order. -/
def prefixVarRefs (content : List Char) : List (String × String) :=
  (prefixVarMatches content).map (fun m => (String.mk m.1.1, String.mk m.1.2))

/-!
## findImportedRoutes and extractRoutesFromContent

The two functions are mutually recursive through the files they read; the
JavaScript recursion is unbounded (it diverges on cyclic imports), so the
embedding carries a fuel parameter decremented at every recursive call.
Each function returns the route list together with the list of
`console.warn` messages it emits.
-/

/-- Warning printed when a spread import cannot be processed. -/
def warnSpread (p : String) : String :=
  "Warning: Could not process imported routes from " ++ p

/-- Warning printed when a `prefix(p, name)` import cannot be processed. -/
def warnPrefixVar (p pfxPath : String) : String :=
  "Warning: Could not process imported routes from " ++ p ++ " with prefix " ++ pfxPath

/-- One iteration of the spread-processing loop of `findImportedRoutes`.
`recur` is `extractRoutesFromContent` at the remaining fuel. -/
def spreadBranch (recur : List Char → String → Option String → List String × List String)
    (fs : Fs) (imports : List (String × ImportInfo)) (filePath : Option String)
    (name : String) : List String × List String :=
  match getA imports name with
  | none => ([], [])
  | some info =>
    let absolutePath := resolveImportPath fs info.path filePath
    match fs.read absolutePath with
    | none => ([], [warnSpread info.path])
    | some imported => recur imported.data "" (some absolutePath)

/-- One iteration of the `prefix("<p>", name)` loop of `findImportedRoutes`. -/
def prefixVarBranch (recur : List Char → String → Option String → List String × List String)
    (fs : Fs) (imports : List (String × ImportInfo)) (filePath : Option String)
    (m : String × String) : List String × List String :=
  match getA imports m.2 with
  | none => ([], [])
  | some info =>
    let absolutePath := resolveImportPath fs info.path filePath
    match fs.read absolutePath with
    | none => ([], [warnPrefixVar info.path m.1])
    | some imported => recur imported.data m.1 (some absolutePath)

/-- Body of `findImportedRoutes`, parametrised by the recursive call. -/
def findImportedBody (recur : List Char → String → Option String → List String × List String)
    (fs : Fs) (content : List Char) (filePath : Option String) :
    List String × List String :=
  let imports := parseImports content
  let sp := (spreadIdents content).map (spreadBranch recur fs imports filePath)
  let pv := (prefixVarRefs content).map (prefixVarBranch recur fs imports filePath)
  ((sp.map Prod.fst).flatten ++ (pv.map Prod.fst).flatten,
   (sp.map Prod.snd).flatten ++ (pv.map Prod.snd).flatten)

/-- The routes collected by one call of `extractRoutesFromContent`, before
the final `[...new Set(routes)]`: imported routes, then the recursively
extracted prefix-block routes, then the regular routes whose heuristic
scope check passes, then the index route. -/
def extractParts (recur : List Char → String → Option String → List String × List String)
    (fs : Fs) (content : List Char) (pfx : String) (filePath : Option String) :
    List String × List String :=
  let imported := findImportedBody recur fs content filePath
  let prefixResults := (prefixMatches content).map (fun m =>
    let startIndex := m.2.2
    let endIndex := findMatchingBracket content startIndex
    let nested := jsSubstring content (startIndex : Int) endIndex
    recur nested (pfx ++ String.mk m.1) filePath)
  let routePart := (routeMatches content).filterMap (fun m =>
    let beforeMatch := content.take m.2.1
    let lastPrefixIndex := lastIndexOfL beforeMatch ("prefix(".data)
    let lastBracketIndex := lastIndexOfL beforeMatch ("]".data)
    if lastPrefixIndex = -1 ∨ lastBracketIndex > lastPrefixIndex then
      some (pfx ++ String.mk m.1)
    else none)
  let indexPart := if containsL content ("index(".data) then [pfx ++ "/"] else []
  (imported.1 ++ (prefixResults.map Prod.fst).flatten ++ routePart ++ indexPart,
    imported.2 ++ (prefixResults.map Prod.snd).flatten)

/-- One call of `extractRoutesFromContent`: collect the parts, then
`return [...new Set(routes)]`. -/
def extractBody (recur : List Char → String → Option String → List String × List String)
    (fs : Fs) (content : List Char) (pfx : String) (filePath : Option String) :
    List String × List String :=
  (jsSetOfList (extractParts recur fs content pfx filePath).1,
   (extractParts recur fs content pfx filePath).2)

/-- Fuel-indexed `extractRoutesFromContent`. -/
def extractAux (fs : Fs) : Nat → List Char → String → Option String →
    List String × List String
  | 0, _, _, _ => ([], [])
  | fuel + 1, content, pfx, filePath =>
    extractBody (fun c p f => extractAux fs fuel c p f) fs content pfx filePath

/-- `findImportedRoutes` at a given fuel. -/
def findImportedRoutes (fs : Fs) (fuel : Nat) (content : List Char)
    (filePath : Option String) : List String × List String :=
  findImportedBody (fun c p f => extractAux fs fuel c p f) fs content filePath

/-- `extractRoutesFromContent` on a whole file.  `content.length + 1` fuel
exceeds the nesting depth reachable on import-free inputs, since every
nested `prefix` block is a strictly shorter substring. -/
def extractRoutesFromContent (fs : Fs) (content : String) (pfx : String)
    (filePath : Option String) : List String :=
  (extractAux fs (content.length + 1) content.data pfx filePath).1

/-!
## valueToSql (src/tools/seedToSql/seedToSql.mjs)
-/

/-- A JavaScript value as discriminated by `valueToSql`.  `obj` carries the
result of `JSON.stringify(value)` and `other` the result of
`String(value)`; `date` is any `Date` instance. -/
inductive JsValue where
  | null
  | undefined
  | str (s : String)
  | num (n : Int)
  | bool (b : Bool)
  | date
  | obj (json : String)
  | other (s : String)
deriving DecidableEq, Repr

/-- `value.replace(/'/g, "''")`. -/
def doubleQuotes (s : String) : String :=
  String.mk (s.data.flatMap (fun c => if c = squote then [squote, squote] else [c]))

/-- The single-quote string `'`. -/
def squoteStr : String := String.mk [squote]

/-- `valueToSql` from the source. -/
def valueToSql : JsValue → String
  | .null => "NULL"
  | .undefined => "NULL"
  | .str s => squoteStr ++ doubleQuotes s ++ squoteStr
  | .num n => toString n
  | .bool b => if b then "1" else "0"
  | .date => "CURRENT_TIMESTAMP"
  | .obj json => squoteStr ++ doubleQuotes json ++ squoteStr
  | .other s => squoteStr ++ doubleQuotes s ++ squoteStr

/-- A filesystem with no readable files, used for inputs without imports. -/
def emptyFs : Fs := ⟨"/proj", []⟩

/-!
## Specification-side definitions

The definitions below are not translations of the source; they state, in
the spec's terms, the properties the claims assert, and the theorems relate
them to the source translations above.
-/

/-- Contribution of one character to the running bracket depth of claim C8:
`+1` for every literal `[`, `-1` for every literal `]` (string literals are
not excluded). -/
def bracketDelta (c : Char) : Int :=
  if c = '[' then 1 else if c = ']' then -1 else 0

/-- The running depth of claim C8: starting from depth 1 just after an
opening bracket, the depth after also processing positions
`start .. j` of `content`. -/
def depthAt (content : List Char) (start j : Nat) : Int :=
  1 + (((content.drop start).take (j + 1 - start)).map bracketDelta).sum

/-- Recursive presentation of first-occurrence deduplication with an
exclusion set, used to relate `jsSetOfList` to `keepFirsts`. -/
def dedupGo (seen : List String) : List String → List String
  | [] => []
  | x :: xs => if x ∈ seen then dedupGo seen xs else x :: dedupGo (seen ++ [x]) xs

/-- Pair every entry of a list with its position, starting from `n`. -/
def withIdx (n : Nat) : List String → List (Nat × String)
  | [] => []
  | x :: xs => (n, x) :: withIdx (n + 1) xs

/-- Keep exactly the entries of `l` that are the first occurrence of their
value and are not excluded by `acc`, in positional order. -/
def keepFirstsEx (acc : List String) (l : List String) : List String :=
  ((withIdx 0 l).filter (fun p => decide (p.2 ∉ acc) && (l.indexOf p.2 == p.1))).map Prod.snd

/-- Keep exactly the entries of `l` that are the first occurrence of their
value, in positional order (the specification of claim C5). -/
def keepFirsts (l : List String) : List String :=
  keepFirstsEx [] l

/-- Rewrites the negated-conjunction guard of `resolveImportPath` into the
positive form used by the specification. -/
theorem ite_not_and_bool {α : Type} (b1 b2 : Bool) (x y : α) :
    (if !b1 && !b2 then x else y) = (if b1 || b2 then y else x) := by
  cases b1 <;> cases b2 <;> rfl

/-!
## Claims C1 to C4: concrete extractions
-/

/-- C1 (counterexample): on the input text
`prefix("/a", [prefix("/b", [route("/c")])])` with no imports,
`extractRoutesFromContent` with empty prefix does NOT return exactly
`["/a/b/c"]`: the regex scan resumes right after the outer `[`, so the
inner `prefix` block is matched a second time at the outer level. -/
theorem c1_nested_counterexample :
    ¬ (extractRoutesFromContent emptyFs
        "prefix(\"/a\", [prefix(\"/b\", [route(\"/c\")])])" "" none = ["/a/b/c"]) := by
  decide

/-- C1 (amended): on the input text
`prefix("/a", [prefix("/b", [route("/c")])])` with no imports,
`extractRoutesFromContent` with empty prefix returns exactly
`["/a/b/c", "/b/c"]`: the nested route is emitted with the full combined
prefix `/a/b/c`, and the inner `prefix` block is additionally re-scanned at
the outer level, emitting the spurious `/b/c`. -/
theorem c1_nested_amended :
    extractRoutesFromContent emptyFs
      "prefix(\"/a\", [prefix(\"/b\", [route(\"/c\")])])" "" none = ["/a/b/c", "/b/c"] := by
  decide

/-- C2 (counterexample): on the input text
`prefix("/admin", [index(() => home)])` with no imports,
`extractRoutesFromContent` with empty prefix does NOT return exactly
`["/admin/"]`: the bare `index(` containment test also fires at the outer
scope. -/
theorem c2_index_counterexample :
    ¬ (extractRoutesFromContent emptyFs
        "prefix(\"/admin\", [index(() => home)])" "" none = ["/admin/"]) := by
  decide

/-- C2 (amended): on the input text `prefix("/admin", [index(() => home)])`
with no imports, `extractRoutesFromContent` with empty prefix returns
exactly `["/admin/", "/"]`: the nested scope yields `/admin/`, and because
the outer scope also contains the substring `index(`, the outer call
additionally appends its own prefix plus `/`, i.e. `/`. -/
theorem c2_index_amended :
    extractRoutesFromContent emptyFs
      "prefix(\"/admin\", [index(() => home)])" "" none = ["/admin/", "/"] := by
  decide

/-- C3: on the input text `prefix("/admin", [route("/x")])` with no
route imports, `extractRoutesFromContent` with empty prefix returns exactly
`["/admin/x"]`; in particular the inner `route("/x")` is not additionally
emitted without the prefix (the heuristic scope check skips it). -/
theorem c3_prefixed_route :
    extractRoutesFromContent emptyFs
      "prefix(\"/admin\", [route(\"/x\")])" "" none = ["/admin/x"] := by
  decide

/-- C4: on an input text containing only the two calls `route("/a")` and
`route("/b")` in that order (no prefix, index or import constructs),
`extractRoutesFromContent` with empty prefix returns exactly
`["/a", "/b"]` in that order. -/
theorem c4_two_routes :
    extractRoutesFromContent emptyFs
      "route(\"/a\")\nroute(\"/b\")" "" none = ["/a", "/b"] := by
  decide

/-!
## Claim C7: resolveImportPath
-/

/-- C7: `resolveImportPath` resolves an import path starting with `@/` by
joining the remainder after `@/` to `<cwd>/src`, and a path starting with
`./` or `../` by joining it to the directory of the current file (the
working directory when there is none); when the result lacks a `.ts` or
`.tsx` extension it returns the path with `.ts` appended if that file is
accessible, otherwise with `.tsx` appended if that file is accessible,
otherwise with `.ts` appended. -/
theorem c7_resolveImportPath_spec (fs : Fs) (ip : String) (cur : Option String) :
    resolveImportPath fs ip cur =
      (let base :=
        if jsStartsWith ip "@/" then nodeJoin [fs.cwd, "src", String.mk (ip.data.drop 2)]
        else if jsStartsWith ip "./" || jsStartsWith ip "../" then
          nodeJoin [(match cur with | some f => nodeDirname f | none => fs.cwd), ip]
        else ip
      if jsEndsWith base ".ts" || jsEndsWith base ".tsx" then base
      else if fs.access (base ++ ".ts") then base ++ ".ts"
      else if fs.access (base ++ ".tsx") then base ++ ".tsx"
      else base ++ ".ts") := by
  simp only [resolveImportPath, ite_not_and_bool]

/-!
## Claims C8 and C9: findMatchingBracket
-/

/-- With an exhausted count the loop exits immediately. -/
theorem findMatchingBracketAux_zero (l : List Char) (i : Nat) :
    findMatchingBracketAux l 0 i = i := by
  cases l <;> simp [findMatchingBracketAux]

/-- The two-conditional `Nat` count update of the source equals adding
`bracketDelta` over `ℤ` while the count is positive. -/
theorem count_update_cast (c : Char) (count : Nat) (h : 0 < count) :
    (((if c = '[' then count + 1 else count) - (if c = ']' then 1 else 0) : Nat) : Int)
      = (count : Int) + bracketDelta c := by
  by_cases h1 : c = '['
  · subst h1
    rw [if_pos rfl, if_neg (by decide : ¬ ('[' : Char) = ']'),
      (by decide : bracketDelta '[' = 1)]
    omega
  · by_cases h2 : c = ']'
    · subst h2
      rw [if_neg (by decide : ¬ (']' : Char) = '['), if_pos rfl,
        (by decide : bracketDelta ']' = -1)]
      omega
    · rw [if_neg h1, if_neg h2]
      unfold bracketDelta
      rw [if_neg h1, if_neg h2]
      omega

/-- `bracketDelta` takes one of the values `1`, `-1`, `0`. -/
theorem bracketDelta_cases (c : Char) :
    bracketDelta c = 1 ∨ bracketDelta c = -1 ∨ bracketDelta c = 0 := by
  by_cases h1 : c = '['
  · left; simp [bracketDelta, h1]
  · by_cases h2 : c = ']' <;> simp [bracketDelta, h1, h2]

/-- Loop invariant, reaching case: if `j` is the first position (relative
offsets within the remaining suffix `rest`) at which the running count hits
zero, the loop stops with `i = j + 1`. -/
theorem findMatchingBracketAux_reach :
    ∀ (rest : List Char) (count i j : Nat), 0 < count → i ≤ j → j - i < rest.length →
      (count : Int) + ((rest.take (j + 1 - i)).map bracketDelta).sum = 0 →
      (∀ k, i ≤ k → k < j →
        (count : Int) + ((rest.take (k + 1 - i)).map bracketDelta).sum ≠ 0) →
      findMatchingBracketAux rest count i = j + 1 := by
  intro rest
  induction rest with
  | nil => intro count i j _ _ h3 _ _; simp at h3
  | cons c rest ih =>
    intro count i j h1 h2 h3 h4 h5
    have hcne : ¬ count = 0 := by omega
    simp only [findMatchingBracketAux, if_neg hcne]
    have hbridge := count_update_cast c count h1
    have htake : ∀ m : Nat, i ≤ m →
        (c :: rest).take (m + 1 - i) = c :: rest.take (m - i) := by
      intro m hm
      rw [show m + 1 - i = (m - i) + 1 by omega, List.take_succ_cons]
    rcases Nat.eq_or_lt_of_le h2 with heq | hlt
    · subst heq
      rw [htake i (le_refl i)] at h4
      simp only [Nat.sub_self, List.take_zero, List.map_cons, List.map_nil, List.sum_cons,
        List.sum_nil, add_zero] at h4
      have hz : ((if c = '[' then count + 1 else count) - (if c = ']' then 1 else 0) : Nat)
          = 0 := by omega
      rw [hz]
      exact findMatchingBracketAux_zero rest (i + 1)
    · have hnz : (count : Int) + bracketDelta c ≠ 0 := by
        have hh := h5 i (le_refl i) hlt
        rw [htake i (le_refl i)] at hh
        simpa using hh
      have hd := bracketDelta_cases c
      have hpos : 0 < ((if c = '[' then count + 1 else count) - (if c = ']' then 1 else 0)
          : Nat) := by omega
      refine ih _ (i + 1) j hpos (by omega) (by simp at h3 ⊢; omega) ?_ ?_
      · rw [htake j h2] at h4
        simp only [List.map_cons, List.sum_cons] at h4
        rw [show j + 1 - (i + 1) = j - i by omega]
        omega
      · intro k hk1 hk2
        have hk0 : i ≤ k := by omega
        have hh := h5 k hk0 hk2
        rw [htake k hk0] at hh
        simp only [List.map_cons, List.sum_cons] at hh
        rw [show k + 1 - (i + 1) = k - i by omega]
        omega

/-- Loop invariant, unbalanced case: if the running count never hits zero
within the remaining suffix, the loop runs to the end of the input. -/
theorem findMatchingBracketAux_never :
    ∀ (rest : List Char) (count i : Nat), 0 < count →
      (∀ k, i ≤ k → k - i < rest.length →
        (count : Int) + ((rest.take (k + 1 - i)).map bracketDelta).sum ≠ 0) →
      findMatchingBracketAux rest count i = i + rest.length := by
  intro rest
  induction rest with
  | nil => intro count i _ _; simp [findMatchingBracketAux]
  | cons c rest ih =>
    intro count i h1 h2
    have hcne : ¬ count = 0 := by omega
    simp only [findMatchingBracketAux, if_neg hcne]
    have hbridge := count_update_cast c count h1
    have htake : ∀ m : Nat, i ≤ m →
        (c :: rest).take (m + 1 - i) = c :: rest.take (m - i) := by
      intro m hm
      rw [show m + 1 - i = (m - i) + 1 by omega, List.take_succ_cons]
    have hnz : (count : Int) + bracketDelta c ≠ 0 := by
      have hh := h2 i (le_refl i) (by simp)
      rw [htake i (le_refl i)] at hh
      simpa using hh
    have hd := bracketDelta_cases c
    have hpos : 0 < ((if c = '[' then count + 1 else count) - (if c = ']' then 1 else 0)
        : Nat) := by omega
    rw [ih _ (i + 1) hpos ?_]
    · simp only [List.length_cons]; omega
    · intro k hk1 hk2
      have hk0 : i ≤ k := by omega
      have hh := h2 k hk0 (by simp; omega)
      rw [htake k hk0] at hh
      simp only [List.map_cons, List.sum_cons] at hh
      rw [show k + 1 - (i + 1) = k - i by omega]
      omega

/-- C8: started just after an opening bracket with depth 1,
`findMatchingBracket` returns the index of the first position at which the
running depth reaches zero, where the depth is incremented on every literal
`[` character and decremented on every literal `]` character of the text —
including bracket characters occurring inside string literals, which
`depthAt` counts like any others. -/
theorem c8_first_depth_zero (content : List Char) (start j : Nat)
    (h1 : start ≤ j) (h2 : j < content.length)
    (h3 : depthAt content start j = 0)
    (h4 : ∀ k, start ≤ k → k < j → depthAt content start k ≠ 0) :
    findMatchingBracket content start = (j : Int) := by
  unfold findMatchingBracket
  rw [findMatchingBracketAux_reach (content.drop start) 1 start j (by omega) h1
    (by rw [List.length_drop]; omega)
    (by unfold depthAt at h3; push_cast; omega)
    (fun k hk1 hk2 => by
      have hh := h4 k hk1 hk2
      unfold depthAt at hh
      push_cast
      omega)]
  push_cast
  ring

/-- Witness for C8 at a concrete input: in `"]"]` the first `]` (inside a
string literal) already brings the depth to zero at index 1. -/
theorem c8_witness :
    findMatchingBracket ("\"]\"]".data) 0 = 1 := by
  have h := c8_first_depth_zero ("\"]\"]".data) 0 1 (by omega) (by decide) (by decide)
    (fun k hk1 hk2 => by
      have hk0 : k = 0 := by omega
      subst hk0
      decide)
  exact_mod_cast h

/-- C9: `findMatchingBracket` terminates for every content string and start
index (it is a total function of this development), and when the depth
never reaches zero before the end of the text it returns the index of the
last character, `content.length - 1`, rather than failing or looping. -/
theorem c9_unbalanced_returns_end (content : List Char) (start : Nat)
    (h1 : start ≤ content.length)
    (h2 : ∀ j, start ≤ j → j < content.length → depthAt content start j ≠ 0) :
    findMatchingBracket content start = (content.length : Int) - 1 := by
  unfold findMatchingBracket
  rw [findMatchingBracketAux_never (content.drop start) 1 start (by omega)
    (fun k hk1 hk2 => by
      rw [List.length_drop] at hk2
      have hh := h2 k hk1 (by omega)
      unfold depthAt at hh
      push_cast
      omega)]
  rw [List.length_drop]
  omega

/-- Witness for C9 at a concrete input: `ab` has no brackets at all, and
`findMatchingBracket` returns index 1, the last character. -/
theorem c9_witness :
    findMatchingBracket ("ab".data) 0 = 1 := by
  have h := c9_unbalanced_returns_end ("ab".data) 0 (Nat.zero_le _)
    (fun j hj1 hj2 => by
      have hl : ("ab".data).length = 2 := by decide
      rw [hl] at hj2
      have hj : j = 0 ∨ j = 1 := by omega
      rcases hj with h' | h' <;> subst h' <;> decide)
  have hl2 : (("ab".data).length : Int) - 1 = 1 := by decide
  rw [hl2] at h
  exact h

/-!
## Claim C5: deduplication via JS `Set` semantics
-/

/-- Shifting the start index of `withIdx` shifts every recorded index. -/
theorem withIdx_succ (l : List String) :
    ∀ n : Nat, withIdx (n + 1) l = (withIdx n l).map (Prod.map (· + 1) id) := by
  induction l with
  | nil => intro n; simp [withIdx]
  | cons x xs ih =>
    intro n
    simp only [withIdx, List.map_cons, Prod.map_apply, id_eq]
    exact congrArg _ (ih (n + 1))

/-- Folding `jsSetAdd` appends exactly the not-yet-seen first occurrences. -/
theorem foldl_jsSetAdd_eq (l : List String) :
    ∀ acc : List String, l.foldl jsSetAdd acc = acc ++ dedupGo acc l := by
  induction l with
  | nil => intro acc; simp [dedupGo]
  | cons x xs ih =>
    intro acc
    rw [List.foldl_cons]
    by_cases hx : x ∈ acc
    · rw [show jsSetAdd acc x = acc from by simp [jsSetAdd, hx]]
      rw [ih acc]
      simp [dedupGo, hx]
    · rw [show jsSetAdd acc x = acc ++ [x] from by simp [jsSetAdd, hx]]
      rw [ih (acc ++ [x])]
      simp [dedupGo, hx]

/-- A JS `Set` never holds duplicates. -/
theorem nodup_foldl_jsSetAdd (l : List String) :
    ∀ acc : List String, acc.Nodup → (l.foldl jsSetAdd acc).Nodup := by
  induction l with
  | nil => intro acc h; simpa using h
  | cons x xs ih =>
    intro acc h
    rw [List.foldl_cons]
    apply ih
    by_cases hx : x ∈ acc
    · simpa [jsSetAdd, hx] using h
    · simp [jsSetAdd, hx, List.nodup_append, h]

/-- The recursive first-occurrence dedup agrees with the positional
description `keepFirstsEx`. -/
theorem dedupGo_eq_keepFirstsEx (l : List String) :
    ∀ acc : List String, dedupGo acc l = keepFirstsEx acc l := by
  induction l with
  | nil => intro acc; simp [dedupGo, keepFirstsEx, withIdx]
  | cons x xs ih =>
    intro acc
    have hsnd : (Prod.snd ∘ Prod.map (· + 1) (id : String → String)) = Prod.snd := by
      funext p; cases p; rfl
    by_cases hx : x ∈ acc
    · have hrhs : keepFirstsEx acc (x :: xs) = keepFirstsEx acc xs := by
        unfold keepFirstsEx
        rw [show withIdx 0 (x :: xs) = (0, x) :: (withIdx 0 xs).map (Prod.map (· + 1) id)
            from by rw [withIdx, ← withIdx_succ]]
        rw [List.filter_cons_of_neg (by simp [hx])]
        rw [List.filter_map, List.map_map, hsnd]
        congr 1
        apply List.filter_congr
        intro p _
        cases p with
        | mk i z =>
          by_cases hz : z ∈ acc
          · simp [hz]
          · have hzx : ¬ z = x := fun h => hz (h ▸ hx)
            have hxz : (x == z) = false := beq_eq_false_iff_ne.mpr (Ne.symm hzx)
            simp [hz, List.indexOf_cons, hxz, Prod.map]
      rw [hrhs, show dedupGo acc (x :: xs) = dedupGo acc xs from by simp [dedupGo, hx]]
      exact ih acc
    · have hrhs : keepFirstsEx acc (x :: xs) = x :: keepFirstsEx (acc ++ [x]) xs := by
        unfold keepFirstsEx
        rw [show withIdx 0 (x :: xs) = (0, x) :: (withIdx 0 xs).map (Prod.map (· + 1) id)
            from by rw [withIdx, ← withIdx_succ]]
        rw [List.filter_cons_of_pos (by simp [hx, List.indexOf_cons_self])]
        rw [List.map_cons]
        rw [List.filter_map, List.map_map, hsnd]
        congr 1
        apply congrArg
        apply List.filter_congr
        intro p _
        cases p with
        | mk i z =>
          by_cases hzx : z = x
          · subst hzx
            have : (z == z) = true := beq_self_eq_true z
            simp [List.indexOf_cons, this, hx]
          · have hxz : (x == z) = false := beq_eq_false_iff_ne.mpr (Ne.symm hzx)
            by_cases hz : z ∈ acc
            · simp [hz, Prod.map]
            · simp [hz, hzx, List.indexOf_cons, hxz, Prod.map]
      rw [hrhs, show dedupGo acc (x :: xs) = x :: dedupGo (acc ++ [x]) xs
        from by simp [dedupGo, hx]]
      exact congrArg _ (ih (acc ++ [x]))

/-- `[...new Set(l)]` keeps exactly the first occurrence of every value. -/
theorem jsSetOfList_eq_keepFirsts (l : List String) :
    jsSetOfList l = keepFirsts l := by
  unfold jsSetOfList keepFirsts
  rw [foldl_jsSetAdd_eq l [], dedupGo_eq_keepFirstsEx l []]
  simp

/-- `[...new Set(l)]` has no duplicates. -/
theorem jsSetOfList_nodup (l : List String) : (jsSetOfList l).Nodup :=
  nodup_foldl_jsSetAdd l [] List.nodup_nil

/-- Membership in a JS `Set` built by folding. -/
theorem mem_foldl_jsSetAdd (l : List String) :
    ∀ (acc : List String) (a : String), a ∈ l.foldl jsSetAdd acc ↔ a ∈ acc ∨ a ∈ l := by
  induction l with
  | nil => intro acc a; simp
  | cons x xs ih =>
    intro acc a
    rw [List.foldl_cons, ih]
    by_cases hx : x ∈ acc
    · rw [show jsSetAdd acc x = acc from by simp [jsSetAdd, hx]]
      constructor
      · rintro (h | h)
        · exact Or.inl h
        · exact Or.inr (List.mem_cons_of_mem _ h)
      · rintro (h | h)
        · exact Or.inl h
        · rcases List.mem_cons.mp h with h' | h'
          · exact Or.inl (h' ▸ hx)
          · exact Or.inr h'
    · rw [show jsSetAdd acc x = acc ++ [x] from by simp [jsSetAdd, hx]]
      simp [List.mem_append, List.mem_cons, or_assoc]

/-- `[...new Set(l)]` has the same members as `l`. -/
theorem mem_jsSetOfList (l : List String) (a : String) :
    a ∈ jsSetOfList l ↔ a ∈ l := by
  unfold jsSetOfList
  rw [mem_foldl_jsSetAdd]
  simp

/-- Unfolding equation of `extractAux` at positive fuel. -/
theorem extractAux_succ (fs : Fs) (fuel : Nat) (content : List Char) (pfx : String)
    (fp : Option String) :
    extractAux fs (fuel + 1) content pfx fp
      = extractBody (fun c p f => extractAux fs fuel c p f) fs content pfx fp := rfl

/-- First projection of `extractBody`. -/
theorem extractBody_fst (recur : List Char → String → Option String → List String × List String)
    (fs : Fs) (content : List Char) (pfx : String) (fp : Option String) :
    (extractBody recur fs content pfx fp).1
      = jsSetOfList (extractParts recur fs content pfx fp).1 := rfl

/-- Second projection of `extractBody`. -/
theorem extractBody_snd (recur : List Char → String → Option String → List String × List String)
    (fs : Fs) (content : List Char) (pfx : String) (fp : Option String) :
    (extractBody recur fs content pfx fp).2
      = (extractParts recur fs content pfx fp).2 := rfl

/-- Second projection of `extractParts`: the warnings are those of the
spread and variable-reference processing followed by those of the
recursive prefix-block calls. -/
theorem extractParts_snd
    (recur : List Char → String → Option String → List String × List String)
    (fs : Fs) (content : List Char) (pfx : String) (fp : Option String) :
    (extractParts recur fs content pfx fp).2
      = (findImportedBody recur fs content fp).2
        ++ (((prefixMatches content).map (fun m =>
              recur (jsSubstring content (m.2.2 : Int) (findMatchingBracket content m.2.2))
                (pfx ++ String.mk m.1) fp)).map Prod.snd).flatten := rfl

/-- Second projection of `findImportedBody`: the warnings of the spread
loop followed by those of the `prefix(p, name)` loop. -/
theorem findImportedBody_snd
    (recur : List Char → String → Option String → List String × List String)
    (fs : Fs) (content : List Char) (fp : Option String) :
    (findImportedBody recur fs content fp).2
      = (((spreadIdents content).map
            (spreadBranch recur fs (parseImports content) fp)).map Prod.snd).flatten
        ++ (((prefixVarRefs content).map
            (prefixVarBranch recur fs (parseImports content) fp)).map Prod.snd).flatten := rfl

/-- C5: for every input (any fuel, filesystem, content, prefix, file path)
the route list returned by `extractRoutesFromContent`'s worker contains no
two equal strings, and at positive fuel it equals the first-occurrence
filter of the raw collected route list: duplicates collapse to a single
entry and the first occurrence's position is kept. -/
theorem c5_dedup_first_occurrence (fuel : Nat) (fs : Fs) (content : List Char)
    (pfx : String) (fp : Option String) :
    ((extractAux fs fuel content pfx fp).1).Nodup ∧
    (extractAux fs (fuel + 1) content pfx fp).1 =
      keepFirsts (extractParts (fun c p f => extractAux fs fuel c p f) fs content pfx fp).1 := by
  constructor
  · cases fuel with
    | zero => simp [extractAux]
    | succ n =>
      rw [extractAux_succ, extractBody_fst]
      exact jsSetOfList_nodup _
  · rw [extractAux_succ, extractBody_fst]
    exact jsSetOfList_eq_keepFirsts _

/-!
## Claim C6: unreadable spread imports
-/

/-- C6: whenever the input contains a spread `...name` of an imported
identifier whose resolved file cannot be read, the processing of that
spread yields zero routes and exactly the warning message, the warning
appears in the warnings emitted by the whole extraction, and the extraction
neither throws nor aborts: every route collected from the rest of the input
is still in the returned list. -/
theorem c6_unreadable_spread_warns (fuel : Nat) (fs : Fs) (content : List Char)
    (pfx : String) (fp : Option String) (name : String) (info : ImportInfo)
    (hmem : name ∈ spreadIdents content)
    (hget : getA (parseImports content) name = some info)
    (hread : fs.read (resolveImportPath fs info.path fp) = none) :
    spreadBranch (fun c p f => extractAux fs fuel c p f) fs (parseImports content) fp name
        = ([], [warnSpread info.path]) ∧
    warnSpread info.path ∈ (extractAux fs (fuel + 1) content pfx fp).2 ∧
    (∀ r ∈ (extractParts (fun c p f => extractAux fs fuel c p f) fs content pfx fp).1,
      r ∈ (extractAux fs (fuel + 1) content pfx fp).1) := by
  have hbranch : spreadBranch (fun c p f => extractAux fs fuel c p f) fs
      (parseImports content) fp name = ([], [warnSpread info.path]) := by
    simp only [spreadBranch, hget, hread]
  refine ⟨hbranch, ?_, ?_⟩
  · rw [extractAux_succ, extractBody_snd, extractParts_snd]
    apply List.mem_append_left
    rw [findImportedBody_snd]
    apply List.mem_append_left
    rw [List.mem_flatten]
    refine ⟨[warnSpread info.path], ?_, List.mem_singleton_self _⟩
    rw [List.map_map]
    refine List.mem_map.mpr ⟨name, hmem, ?_⟩
    rw [Function.comp_apply, hbranch]
  · intro r hr
    rw [extractAux_succ, extractBody_fst, mem_jsSetOfList]
    exact hr

/-- Witness for C6 at a concrete scenario: the file imports `userRoutes`
from `./routes`, which resolves to `/proj/routes.ts`, unreadable on the
empty filesystem; the spread contributes only the warning. -/
theorem c6_witness :
    spreadBranch (fun c p f => extractAux emptyFs 0 c p f) emptyFs
        (parseImports ("import { userRoutes } from \"./routes\"\n...userRoutes".data))
        none "userRoutes"
      = ([], [warnSpread "./routes"]) ∧
    warnSpread "./routes" ∈
      (extractAux emptyFs (0 + 1)
        ("import { userRoutes } from \"./routes\"\n...userRoutes".data) "" none).2 := by
  have h := c6_unreadable_spread_warns 0 emptyFs
    ("import { userRoutes } from \"./routes\"\n...userRoutes".data) "" none
    "userRoutes" ⟨none, "./routes"⟩ (by decide) (by decide) (by decide)
  exact ⟨h.1, h.2.1⟩

/-!
## Claim C10: valueToSql
-/

/-- C10: `valueToSql` is total over its input cases; a string value is
returned wrapped in single quotes with every single-quote character inside
it doubled; `null` and `undefined` map to `NULL`; booleans map to `1` or
`0`; integral numbers map to their decimal representation unquoted. -/
theorem c10_valueToSql_cases :
    valueToSql .null = "NULL" ∧
    valueToSql .undefined = "NULL" ∧
    (∀ s : String, valueToSql (.str s) = squoteStr ++ doubleQuotes s ++ squoteStr ∧
      (doubleQuotes s).data =
        s.data.flatMap (fun c => if c = squote then [squote, squote] else [c])) ∧
    (∀ n : Int, valueToSql (.num n) = toString n) ∧
    valueToSql (.bool true) = "1" ∧
    valueToSql (.bool false) = "0" :=
  ⟨rfl, rfl, fun _ => ⟨rfl, rfl⟩, fun _ => rfl, rfl, rfl⟩

end GraftThis
